import Mathlib

/-!
# The sliding-window list model of the media library (`mlbasemodel.hpp`)

A shallow embedding of `MLSlidingWindowModel<T>`: the adapter between the
asynchronously populated `ListCache` and the list view.  Every member function
becomes a function on an explicit model state; the calls it makes on the cache
and the signals it emits are appended to an observation trace kept in that state.
-/

namespace MLModel

/-! ## Machine integers -/

/-- C++ `int`, 32-bit two's complement: the type of `signedidx`, of
`QModelIndex::row()`, of `QVariant::toInt()`, of the value returned by `rowCount`
and of the argument of `thumbnailUpdated`. -/
structure CInt where
  val : Int
  inRange : -2147483648 ≤ val ∧ val < 2147483648
deriving DecidableEq

/-- Conversion of a wider integer (`ssize_t`, `size_t`) to `int`: reduction modulo `2^32`
into the signed range. -/
def toCInt (x : Int) : CInt :=
  ⟨(x + 2147483648) % 4294967296 - 2147483648, by constructor <;> omega⟩

/-- The cast `static_cast<unsigned int>(x)`: reduction modulo `2^32`. -/
def toUInt (x : Int) : Nat := (x % 4294967296).toNat

/-- The cast `static_cast<size_t>(x)`: reduction modulo `2^64`. -/
def toSize (x : Int) : Nat := (x % 18446744073709551616).toNat

/-! ## Collaborators declared outside `mlbasemodel.hpp` -/

/-- Modelled from the spec: `MLItemId` (mlqmltypes.hpp) is not among the sources; it is the
"stable item identifier" of an item, of which the model reads the field `id`. -/
structure MLItemId where
  id : Int
deriving DecidableEq, Repr

/-- The template parameter `T`: an item type offering `getId()`. -/
class MLItem (T : Type) where
  getId : T → MLItemId

/-- The plainest item: one that is only its identifier. -/
instance : MLItem MLItemId := ⟨fun x => x⟩

/-- What the model uses of a `QModelIndex`: `isValid()` and `row()`. -/
structure QModelIndex where
  isValid : Bool
  row : CInt
deriving DecidableEq

/-- What the model uses of a `QVariant` received as an index: `canConvert<int>()`,
`toInt()`, `canConvert<QModelIndex>()` and `value<QModelIndex>()`. -/
structure QVariant where
  canConvertInt : Bool
  toInt : CInt
  canConvertModelIndex : Bool
  valueModelIndex : QModelIndex
deriving DecidableEq

/-- What the model uses of an `MLEvent`: `i_type`, and for a thumbnail event the fields
`media_thumbnail_generated.b_success` and `media_thumbnail_generated.i_media_id`. -/
inductive MLEvent where
  | MEDIA_THUMBNAIL_GENERATED (b_success : Bool) (i_media_id : Int)
  | OTHER (i_type : Nat)
deriving DecidableEq

/-- The `BaseLoader` nested in the model: the query parameters copied from the model by
its constructor `BaseLoader(const MLSlidingWindowModel<T> &model)`. -/
structure BaseLoader where
  m_parent : Int
  m_searchPattern : String
  m_sort : Nat
  m_sort_desc : Bool
deriving DecidableEq

/-- Modelled from the spec: `ListCache` (util/listcache.hpp) is not among the sources.
It owns the logical count (or the uninitialized sentinel) and a sparse mapping from index
to item.  A slot is present when `m_slots` holds an item at that index; a slot that is
absent or pending holds nothing.  `m_pending` is the anchor of the one load that may be
in flight, `m_count_requested` records that the asynchronous count fetch was scheduled.
Results of loads and of the count fetch arrive through a queued hand-off on the owning
thread, hence never during a call of the model. -/
structure ListCache (T : Type) where
  m_loader : BaseLoader
  m_total_count : Int
  m_slots : List (Option T)
  m_pending : Option Nat
  m_count_requested : Bool
deriving DecidableEq

namespace ListCache

variable {T : Type}

/-- Modelled from the spec: the constructor `ListCache(threadPool, loader)` is not among
the sources; a new cache has no slot and its count is the uninitialized sentinel. -/
def create (COUNT_UNINITIALIZED : Int) (loader : BaseLoader) : ListCache T :=
  { m_loader := loader, m_total_count := COUNT_UNINITIALIZED, m_slots := [],
    m_pending := none, m_count_requested := false }

/-- Modelled from the spec: `count()` "returns the Logical Count or the uninitialized
sentinel". -/
def count (c : ListCache T) : Int := c.m_total_count

/-- Modelled from the spec: `initCount()` "schedules an asynchronous count fetch; until it
completes, logical count reports uninitialized". -/
def initCount (c : ListCache T) : ListCache T :=
  { c with m_count_requested := true }

/-- Modelled from the spec: `get(index)` is "non-blocking; returns the item if present,
`None` if absent or pending", and "never triggers I/O itself". -/
def get (c : ListCache T) (index : Nat) : Option T :=
  match c.m_slots.get? index with
  | some (some t) => some t
  | _ => none

/-- Modelled from the spec: `refer(index)` "declares that `index` is about to be read";
when the slot is not present a load anchored at `index` is scheduled, superseding the
pending one; a slot already present schedules nothing.  It returns immediately and only
schedules work: neither the slots nor the count change. -/
def refer (c : ListCache T) (index : Nat) : ListCache T :=
  match c.get index with
  | some _ => c
  | none => if c.m_pending = some index then c else { c with m_pending := some index }

end ListCache

/-! ## The model state and its observation trace -/

/-- The calls on collaborators and the signals emitted, in the order they happen. -/
inductive Event where
  | createLoader
  | initCount
  | refer (idx : Nat)
  | get (idx : Nat)
  | countChanged (n : Nat)
  | thumbnailUpdated (row : CInt)
  | baseOnVlcMlEvent
deriving DecidableEq

/-- The state of an `MLSlidingWindowModel<T>`: the query fields inherited from
`MLBaseModel`, the lazily created `m_cache` (`none` is the null pointer), and the trace of
what the model has done so far. -/
structure MLSlidingWindowModel (T : Type) where
  m_parent : Int
  m_search_pattern : String
  m_sort : Nat
  m_sort_desc : Bool
  m_cache : Option (ListCache T)
  trace : List Event
deriving DecidableEq

namespace MLSlidingWindowModel

variable {T : Type}

/-- The pure virtual `createLoader()`: every loader derives from `BaseLoader`, built from
the model by `BaseLoader(model)`, which copies the query fields. -/
def createLoader (m : MLSlidingWindowModel T) : BaseLoader :=
  { m_parent := m.m_parent, m_searchPattern := m.m_search_pattern,
    m_sort := m.m_sort, m_sort_desc := m.m_sort_desc }

/-- Member `validateCache()`: nothing when the cache exists; otherwise a cache is created
from `createLoader()` and `initCount()` is called on it.  The cache now in place is returned
together with the state, for the `m_cache->` accesses that follow every call.  The thread
pool handed to the cache and the three signal connections do not bear on what the model
answers and are left out. -/
def validateCache (COUNT_UNINITIALIZED : Int) (m : MLSlidingWindowModel T) :
    ListCache T × MLSlidingWindowModel T :=
  match m.m_cache with
  | some c => (c, m)
  | none =>
    let loader := m.createLoader
    let c := (ListCache.create COUNT_UNINITIALIZED loader : ListCache T).initCount
    (c, { m with m_cache := some c,
                 trace := m.trace ++ [Event.createLoader, Event.initCount] })

/-- Member `invalidateCache()`: `m_cache.reset()`. -/
def invalidateCache (m : MLSlidingWindowModel T) : MLSlidingWindowModel T :=
  { m with m_cache := none }

/-- Member `rowCount(parent)`: 0 for a valid parent; otherwise the cache is validated and its
`count()` is returned, converted from `ssize_t` to `int`. -/
def rowCount (COUNT_UNINITIALIZED : Int) (m : MLSlidingWindowModel T) (parent : QModelIndex) :
    CInt × MLSlidingWindowModel T :=
  if parent.isValid then (toCInt 0, m)
  else
    let (c, m1) := validateCache COUNT_UNINITIALIZED m
    (toCInt c.count, m1)

/-- Member `clear()`: `invalidateCache()` then `emit countChanged(0)`. -/
def clear (m : MLSlidingWindowModel T) : MLSlidingWindowModel T :=
  let m1 := m.invalidateCache
  { m1 with trace := m1.trace ++ [Event.countChanged 0] }

/-- Member `getCount()`: 0 without a cache or with an uninitialized count, else the count cast
to `unsigned int`. -/
def getCount (COUNT_UNINITIALIZED : Int) (m : MLSlidingWindowModel T) :
    Nat × MLSlidingWindowModel T :=
  match m.m_cache with
  | none => (0, m)
  | some c =>
    if c.count = COUNT_UNINITIALIZED then (0, m)
    else (toUInt c.count, m)

/-- Member `item(signedidx)`: validates the cache, returns null when the count is uninitialized
or the index lies outside `[0, count)`, else refers the index and returns what `get`
holds for it. -/
def item (COUNT_UNINITIALIZED : Int) (m : MLSlidingWindowModel T) (signedidx : CInt) :
    Option T × MLSlidingWindowModel T :=
  let (c, m1) := validateCache COUNT_UNINITIALIZED m
  let count := c.count
  if count = COUNT_UNINITIALIZED ∨ signedidx.val < 0 ∨ signedidx.val ≥ count then
    (none, m1)
  else
    let idx := toUInt signedidx.val
    let c1 := c.refer idx
    let item := c1.get idx
    (item, { m1 with m_cache := some c1,
                     trace := m1.trace ++ [Event.refer idx, Event.get idx] })

/-- The tail shared by the `getId*` functions: null gives the empty `QVariant` (`none`),
an item gives `QVariant::fromValue(obj->getId())`. -/
def idOfObj [MLItem T] (obj : Option T) : Option MLItemId :=
  match obj with
  | none => none
  | some o => some (MLItem.getId o)

/-- Member `getIdForIndex(QVariant index)`: the row is `toInt()` when the value converts to
`int`, else the row of its model index when it converts to one; no row gives null. -/
def getIdForIndex [MLItem T] (COUNT_UNINITIALIZED : Int) (m : MLSlidingWindowModel T)
    (index : QVariant) : Option MLItemId × MLSlidingWindowModel T :=
  let (obj, m1) :=
    if index.canConvertInt then item COUNT_UNINITIALIZED m index.toInt
    else if index.canConvertModelIndex then
      item COUNT_UNINITIALIZED m index.valueModelIndex.row
    else (none, m)
  (idOfObj obj, m1)

/-- The call `std::transform(first, last, std::back_inserter(idList), f)`: applies `f` to the
elements in order, appending each result. -/
def transform {α β σ : Type} (f : σ → α → β × σ) : σ → List α → List β × σ
  | s, [] => ([], s)
  | s, x :: xs =>
    let (r, s1) := f s x
    let (rs, s2) := transform f s1 xs
    (r :: rs, s2)

/-- Member `getIdsForIndexes(QModelIndexList indexes)`: `item(index.row())` for each index
in turn. -/
def getIdsForIndexes_QModelIndexList [MLItem T] (COUNT_UNINITIALIZED : Int)
    (m : MLSlidingWindowModel T) (indexes : List QModelIndex) :
    List (Option MLItemId) × MLSlidingWindowModel T :=
  transform (fun s (index : QModelIndex) =>
    let (obj, s1) := item COUNT_UNINITIALIZED s index.row
    (idOfObj obj, s1)) m indexes

/-- Member `getIdsForIndexes(QVariantList indexes)`: for each value in turn, what
`getIdForIndex` does. -/
def getIdsForIndexes_QVariantList [MLItem T] (COUNT_UNINITIALIZED : Int)
    (m : MLSlidingWindowModel T) (indexes : List QVariant) :
    List (Option MLItemId) × MLSlidingWindowModel T :=
  transform (fun s (index : QVariant) =>
    let (obj, s1) :=
      if index.canConvertInt then item COUNT_UNINITIALIZED s index.toInt
      else if index.canConvertModelIndex then
        item COUNT_UNINITIALIZED s index.valueModelIndex.row
      else (none, s)
    (idOfObj obj, s1)) m indexes

/-- The loop `for (size_t i = 0; i < total; ++i)` of `onVlcMlEvent`, entered at `i` with
`fuel = total - i` iterations left: it stops at the first slot `get` reports missing and
at the first item whose id is the event's media id, for which `thumbnailUpdated(i)` is
called. -/
def scanLoop [MLItem T] (c : ListCache T) (i_media_id : Int) : Nat → Nat → List Event
  | 0, _ => []
  | fuel + 1, i =>
    match c.get i with
    | none => [Event.get i]
    | some localItem =>
      if (MLItem.getId localItem).id = i_media_id then
        [Event.get i, Event.thumbnailUpdated (toCInt i)]
      else Event.get i :: scanLoop c i_media_id fuel (i + 1)

/-- What the `switch` of `onVlcMlEvent` does before delegating to the base class. -/
def onVlcMlEventSwitch [MLItem T] (COUNT_UNINITIALIZED : Int) (m : MLSlidingWindowModel T)
    (event : MLEvent) : List Event :=
  match event with
  | MLEvent.MEDIA_THUMBNAIL_GENERATED b_success i_media_id =>
    if b_success then
      match m.m_cache with
      | none => []
      | some c =>
        let stotal := c.count
        if stotal = COUNT_UNINITIALIZED then []
        else
          let total := toSize stotal
          scanLoop c i_media_id total 0
    else []
  | MLEvent.OTHER _ => []

/-- Member `onVlcMlEvent(event)`: the `switch`, then `MLBaseModel::onVlcMlEvent(event)`, whose
body lies outside this header and is recorded as one trace entry. -/
def onVlcMlEvent [MLItem T] (COUNT_UNINITIALIZED : Int) (m : MLSlidingWindowModel T)
    (event : MLEvent) : MLSlidingWindowModel T :=
  { m with trace := m.trace ++ onVlcMlEventSwitch COUNT_UNINITIALIZED m event
                      ++ [Event.baseOnVlcMlEvent] }

end MLSlidingWindowModel

/-- Whether a trace entry is a call of `thumbnailUpdated`, whatever its row. -/
def Event.isThumbnailUpdated : Event → Bool
  | Event.thumbnailUpdated _ => true
  | _ => false

/-- The part of the trace added between the state `before` and the later state `after`. -/
def newEvents {T : Type} (before after : MLSlidingWindowModel T) : List Event :=
  after.trace.drop before.trace.length

/-! ## Sample states, used to evaluate the model on concrete inputs -/

/-- A model that was never accessed: no cache, empty trace. -/
def sampleUninitialized : MLSlidingWindowModel MLItemId :=
  { m_parent := 0, m_search_pattern := "", m_sort := 0, m_sort_desc := false,
    m_cache := none, trace := [] }

/-- A cache still waiting for its count, the sentinel being `-1`. -/
def sampleCountingCache : ListCache MLItemId :=
  (ListCache.create (-1) sampleUninitialized.createLoader).initCount

/-- A cache of two rows of which only the second is loaded: it holds the item of id 7. -/
def sampleWindowCache : ListCache MLItemId :=
  { m_loader := sampleUninitialized.createLoader, m_total_count := 2,
    m_slots := [none, some ⟨7⟩], m_pending := none, m_count_requested := true }

/-- A cache of three rows, all loaded, with ids 5, 7 and 7. -/
def sampleFullCache : ListCache MLItemId :=
  { m_loader := sampleUninitialized.createLoader, m_total_count := 3,
    m_slots := [some ⟨5⟩, some ⟨7⟩, some ⟨7⟩], m_pending := none,
    m_count_requested := true }

/-- The model holding `sampleCountingCache`. -/
def sampleCounting : MLSlidingWindowModel MLItemId :=
  { sampleUninitialized with m_cache := some sampleCountingCache }

/-- The model holding `sampleWindowCache`. -/
def sampleWindow : MLSlidingWindowModel MLItemId :=
  { sampleUninitialized with m_cache := some sampleWindowCache }

/-- The model holding `sampleFullCache`. -/
def sampleFull : MLSlidingWindowModel MLItemId :=
  { sampleUninitialized with m_cache := some sampleFullCache }

/-- The root index `QModelIndex()`: invalid, row `-1`. -/
def rootIndex : QModelIndex := ⟨false, toCInt (-1)⟩

/-- A valid index, on row 0: the index of an item, which has no children. -/
def sampleItemIndex : QModelIndex := ⟨true, toCInt 0⟩

/-- An index value that converts neither to `int` nor to a model index. -/
def sampleUnconvertible : QVariant := ⟨false, toCInt 0, false, rootIndex⟩

/-- The index value holding the integer 1. -/
def sampleIntVariant : QVariant := ⟨true, toCInt 1, false, rootIndex⟩

/-! ## The reading of "materialized row" used for the `getId*` functions -/

/-- The item a row has materialized at present: nothing without a cache or while the count
is unknown, nothing for a row outside `[0, count)`, and otherwise what the slot of that
row holds, which is nothing for an absent or pending slot. -/
def materializedItem {T : Type} (COUNT_UNINITIALIZED : Int) (m : MLSlidingWindowModel T)
    (row : CInt) : Option T :=
  match m.m_cache with
  | none => none
  | some c =>
    if c.count = COUNT_UNINITIALIZED then none
    else if row.val < 0 ∨ c.count ≤ row.val then none
    else c.get row.val.toNat

/-- The row an index value designates: its integer value when it converts to `int`, else
the row of its model index when it converts to one, else no row at all. -/
def rowOfIndex (index : QVariant) : Option CInt :=
  if index.canConvertInt then some index.toInt
  else if index.canConvertModelIndex then some index.valueModelIndex.row
  else none

/-- The identifier expected for a designated row: the id of its materialized item, and the
empty value when no row is designated or the row has no materialized item. -/
def expectedId {T : Type} [MLItem T] (COUNT_UNINITIALIZED : Int) (m : MLSlidingWindowModel T)
    (row : Option CInt) : Option MLItemId :=
  match row with
  | none => none
  | some r =>
    match materializedItem COUNT_UNINITIALIZED m r with
    | none => none
    | some o => some (MLItem.getId o)

/-! ## Sequences of accesses -/

/-- One call of the read interface of the model. -/
inductive Call where
  | rowCount (parent : QModelIndex)
  | item (signedidx : CInt)
  | getIdForIndex (index : QVariant)
  | getIdsForIndexes_QModelIndexList (indexes : List QModelIndex)
  | getIdsForIndexes_QVariantList (indexes : List QVariant)

/-- The state after one call, its result dropped. -/
def Call.run {T : Type} [MLItem T] (COUNT_UNINITIALIZED : Int) (m : MLSlidingWindowModel T) :
    Call → MLSlidingWindowModel T
  | Call.rowCount parent => (MLSlidingWindowModel.rowCount COUNT_UNINITIALIZED m parent).2
  | Call.item signedidx => (MLSlidingWindowModel.item COUNT_UNINITIALIZED m signedidx).2
  | Call.getIdForIndex index =>
    (MLSlidingWindowModel.getIdForIndex COUNT_UNINITIALIZED m index).2
  | Call.getIdsForIndexes_QModelIndexList indexes =>
    (MLSlidingWindowModel.getIdsForIndexes_QModelIndexList COUNT_UNINITIALIZED m indexes).2
  | Call.getIdsForIndexes_QVariantList indexes =>
    (MLSlidingWindowModel.getIdsForIndexes_QVariantList COUNT_UNINITIALIZED m indexes).2

/-- The state after a sequence of calls, made one after the other with no `clear()` in
between. -/
def runCalls {T : Type} [MLItem T] (COUNT_UNINITIALIZED : Int) (m : MLSlidingWindowModel T)
    (calls : List Call) : MLSlidingWindowModel T :=
  calls.foldl (Call.run COUNT_UNINITIALIZED) m

/-- Whether an index value converts to `int` or to a model index. -/
def QVariant.convertible (index : QVariant) : Bool :=
  index.canConvertInt || index.canConvertModelIndex

/-- Whether a call gets as far as `validateCache()`: `rowCount` for an invalid parent,
`item` always, the `getId*` functions when an index converts to a row. -/
def Call.reachesValidateCache : Call → Bool
  | Call.rowCount parent => !parent.isValid
  | Call.item _ => true
  | Call.getIdForIndex index => index.convertible
  | Call.getIdsForIndexes_QModelIndexList indexes => indexes.any (fun _ => true)
  | Call.getIdsForIndexes_QVariantList indexes => indexes.any QVariant.convertible

/-- How a step from `m` to `m1` that reaches `validateCache()` exactly when `b` holds
relates the two states: a cache exists afterwards when it existed before or was reached
for, and `initCount` and `createLoader` were called once more when a cache had to be
created, and not otherwise. -/
def LazyStep {T : Type} (m m1 : MLSlidingWindowModel T) (b : Bool) : Prop :=
  m1.m_cache.isSome = (m.m_cache.isSome || b) ∧
  m1.trace.count Event.initCount =
    m.trace.count Event.initCount + (if m.m_cache.isSome || !b then 0 else 1) ∧
  m1.trace.count Event.createLoader =
    m.trace.count Event.createLoader + (if m.m_cache.isSome || !b then 0 else 1)

/-! ## Lemmas on the cache -/

namespace ListCache

variable {T : Type}

theorem count_refer (c : ListCache T) (i : Nat) : (c.refer i).count = c.count := by
  unfold refer
  split
  · rfl
  · split <;> rfl

theorem slots_refer (c : ListCache T) (i : Nat) : (c.refer i).m_slots = c.m_slots := by
  unfold refer
  split
  · rfl
  · split <;> rfl

theorem get_refer (c : ListCache T) (i j : Nat) : (c.refer i).get j = c.get j := by
  unfold get
  rw [slots_refer]

end ListCache

/-! ## Lemmas on the integer conversions -/

theorem toUInt_of_CInt_nonneg (x : CInt) (h : 0 ≤ x.val) : toUInt x.val = x.val.toNat := by
  unfold toUInt
  have := x.inRange
  rw [Int.emod_eq_of_lt h (by omega)]

namespace MLSlidingWindowModel

variable {T : Type}

/-! ## Lemmas on `validateCache` -/

theorem validateCache_cache (U : Int) (m : MLSlidingWindowModel T) :
    (validateCache U m).2.m_cache = some (validateCache U m).1 := by
  unfold validateCache
  cases h : m.m_cache <;> simp [h]

theorem validateCache_of_some (U : Int) (m : MLSlidingWindowModel T) (c : ListCache T)
    (h : m.m_cache = some c) : validateCache U m = (c, m) := by
  unfold validateCache
  simp [h]

theorem validateCache_of_none (U : Int) (m : MLSlidingWindowModel T) (h : m.m_cache = none) :
    validateCache U m =
      ((ListCache.create U m.createLoader).initCount,
       { m with m_cache := some (ListCache.create U m.createLoader).initCount,
                trace := m.trace ++ [Event.createLoader, Event.initCount] }) := by
  unfold validateCache
  simp [h]

theorem validateCache_count_of_none (U : Int) (m : MLSlidingWindowModel T)
    (h : m.m_cache = none) : (validateCache U m).1.count = U := by
  rw [validateCache_of_none U m h]
  rfl

/-! ## Lemmas on `item` -/

theorem item_of_guard (U : Int) (m : MLSlidingWindowModel T) (s : CInt)
    (h : (validateCache U m).1.count = U ∨ s.val < 0 ∨ s.val ≥ (validateCache U m).1.count) :
    item U m s = (none, (validateCache U m).2) := by
  unfold item
  simp only [h, if_true]

theorem item_of_range (U : Int) (m : MLSlidingWindowModel T) (s : CInt)
    (h : ¬ ((validateCache U m).1.count = U ∨ s.val < 0 ∨
            s.val ≥ (validateCache U m).1.count)) :
    item U m s =
      ((((validateCache U m).1.refer (toUInt s.val)).get (toUInt s.val)),
       { (validateCache U m).2 with
           m_cache := some ((validateCache U m).1.refer (toUInt s.val)),
           trace := (validateCache U m).2.trace ++
             [Event.refer (toUInt s.val), Event.get (toUInt s.val)] }) := by
  unfold item
  simp only [h, if_false]


theorem validateCache_newEvents (U : Int) (m : MLSlidingWindowModel T) :
    newEvents m (validateCache U m).2 =
      if m.m_cache.isNone then [Event.createLoader, Event.initCount] else [] := by
  unfold newEvents validateCache
  cases h : m.m_cache <;> simp [h]

theorem item_newEvents_of_guard (U : Int) (m : MLSlidingWindowModel T) (s : CInt)
    (h : (validateCache U m).1.count = U ∨ s.val < 0 ∨ s.val ≥ (validateCache U m).1.count) :
    newEvents m (item U m s).2 =
      if m.m_cache.isNone then [Event.createLoader, Event.initCount] else [] := by
  rw [item_of_guard U m s h, validateCache_newEvents]

theorem item_newEvents_of_range (U : Int) (m : MLSlidingWindowModel T) (s : CInt)
    (h : ¬ ((validateCache U m).1.count = U ∨ s.val < 0 ∨
            s.val ≥ (validateCache U m).1.count)) :
    newEvents m (item U m s).2 =
      (if m.m_cache.isNone then [Event.createLoader, Event.initCount] else []) ++
        [Event.refer (toUInt s.val), Event.get (toUInt s.val)] := by
  rw [item_of_range U m s h]
  unfold newEvents validateCache
  cases hc : m.m_cache <;> simp [hc]

/-! ## Lemmas on the scan of `onVlcMlEvent` -/

section Scan

variable [MLItem T]

theorem scanLoop_mem_kind (c : ListCache T) (X : Int) :
    ∀ (fuel i : Nat) (e : Event), e ∈ scanLoop c X fuel i →
      (∃ j, e = Event.get j) ∨ (∃ r, e = Event.thumbnailUpdated r) := by
  intro fuel
  induction fuel with
  | zero => intro i e h; simp [scanLoop] at h
  | succ n ih =>
    intro i e h
    rw [scanLoop] at h
    split at h
    · simp only [List.mem_singleton] at h
      exact Or.inl ⟨i, h⟩
    · split at h
      · simp only [List.mem_cons, List.mem_singleton, List.not_mem_nil, or_false] at h
        rcases h with h | h
        · exact Or.inl ⟨i, h⟩
        · exact Or.inr ⟨_, h⟩
      · simp only [List.mem_cons] at h
        rcases h with h | h
        · exact Or.inl ⟨i, h⟩
        · exact ih (i + 1) e h

theorem scanLoop_get_mem (c : ListCache T) (X : Int) :
    ∀ (fuel i j : Nat), Event.get j ∈ scanLoop c X fuel i →
      i ≤ j ∧ j < i + fuel ∧
        ∀ k, i ≤ k → k < j → ∃ t, c.get k = some t ∧ (MLItem.getId t).id ≠ X := by
  intro fuel
  induction fuel with
  | zero => intro i j h; simp [scanLoop] at h
  | succ n ih =>
    intro i j h
    rw [scanLoop] at h
    split at h
    · simp only [List.mem_singleton, Event.get.injEq] at h
      subst h
      exact ⟨le_refl _, by omega, fun k h1 h2 => by omega⟩
    · rename_i localItem hget
      split at h
      · simp only [List.mem_cons, Event.get.injEq, List.mem_singleton, reduceCtorEq,
          or_false, List.not_mem_nil] at h
        subst h
        exact ⟨le_refl _, by omega, fun k h1 h2 => by omega⟩
      · rename_i hne
        simp only [List.mem_cons, Event.get.injEq] at h
        rcases h with h | h
        · subst h
          exact ⟨le_refl _, by omega, fun k h1 h2 => by omega⟩
        · obtain ⟨h1, h2, h3⟩ := ih (i + 1) j h
          refine ⟨by omega, by omega, fun k hk1 hk2 => ?_⟩
          by_cases hki : k = i
          · subst hki
            exact ⟨localItem, hget, hne⟩
          · exact h3 k (by omega) hk2

theorem scanLoop_thumbnail_mem (c : ListCache T) (X : Int) :
    ∀ (fuel i : Nat) (r : CInt), Event.thumbnailUpdated r ∈ scanLoop c X fuel i →
      ∃ j, i ≤ j ∧ j < i + fuel ∧ r = toCInt j ∧
        (∃ t, c.get j = some t ∧ (MLItem.getId t).id = X) ∧
        ∀ k, i ≤ k → k < j → ∃ t, c.get k = some t ∧ (MLItem.getId t).id ≠ X := by
  intro fuel
  induction fuel with
  | zero => intro i r h; simp [scanLoop] at h
  | succ n ih =>
    intro i r h
    rw [scanLoop] at h
    split at h
    · simp at h
    · rename_i localItem hget
      split at h
      · rename_i heq
        simp only [List.mem_cons, reduceCtorEq, Event.thumbnailUpdated.injEq,
          List.mem_singleton, false_or, List.not_mem_nil, or_false] at h
        exact ⟨i, le_refl _, by omega, h, ⟨localItem, hget, heq⟩, fun k h1 h2 => by omega⟩
      · rename_i hne
        simp only [List.mem_cons, reduceCtorEq, false_or] at h
        obtain ⟨j, h1, h2, h3, h4, h5⟩ := ih (i + 1) r h
        refine ⟨j, by omega, by omega, h3, h4, fun k hk1 hk2 => ?_⟩
        by_cases hki : k = i
        · subst hki
          exact ⟨localItem, hget, hne⟩
        · exact h5 k (by omega) hk2

theorem scanLoop_thumbnail_count (c : ListCache T) (X : Int) :
    ∀ (fuel i : Nat), (scanLoop c X fuel i).countP Event.isThumbnailUpdated ≤ 1 := by
  intro fuel
  induction fuel with
  | zero => intro i; simp [scanLoop]
  | succ n ih =>
    intro i
    rw [scanLoop]
    split
    · simp [Event.isThumbnailUpdated]
    · split
      · simp [Event.isThumbnailUpdated, List.countP_cons]
      · rw [List.countP_cons_of_neg]
        · exact ih (i + 1)
        · simp [Event.isThumbnailUpdated]

theorem scanLoop_finds (c : ListCache T) (X : Int) :
    ∀ (fuel i j : Nat), i ≤ j → j < i + fuel →
      (∃ t, c.get j = some t ∧ (MLItem.getId t).id = X) →
      (∀ k, i ≤ k → k < j → ∃ t, c.get k = some t ∧ (MLItem.getId t).id ≠ X) →
      Event.thumbnailUpdated (toCInt j) ∈ scanLoop c X fuel i := by
  intro fuel
  induction fuel with
  | zero => intro i j h1 h2; omega
  | succ n ih =>
    intro i j h1 h2 hj hk
    rw [scanLoop]
    by_cases hij : i = j
    · subst hij
      obtain ⟨t, ht, hid⟩ := hj
      simp [ht, hid]
    · obtain ⟨t, ht, hid⟩ := hk i (le_refl _) (by omega)
      simp only [ht, hid, if_false]
      refine List.mem_cons_of_mem _ (ih (i + 1) j (by omega) (by omega) hj ?_)
      exact fun k hk1 hk2 => hk k (by omega) hk2

theorem onVlcMlEvent_newEvents (U : Int) (m : MLSlidingWindowModel T) (event : MLEvent) :
    newEvents m (onVlcMlEvent U m event) =
      onVlcMlEventSwitch U m event ++ [Event.baseOnVlcMlEvent] := by
  simp [newEvents, onVlcMlEvent]

theorem onVlcMlEventSwitch_of_scan (U : Int) (m : MLSlidingWindowModel T) (b : Bool) (X : Int)
    (e : Event) (he : e ∈ onVlcMlEventSwitch U m (MLEvent.MEDIA_THUMBNAIL_GENERATED b X)) :
    b = true ∧ ∃ c, m.m_cache = some c ∧ c.count ≠ U ∧
      e ∈ scanLoop c X (toSize c.count) 0 ∧
      onVlcMlEventSwitch U m (MLEvent.MEDIA_THUMBNAIL_GENERATED b X) =
        scanLoop c X (toSize c.count) 0 := by
  unfold onVlcMlEventSwitch at he ⊢
  cases b with
  | false => simp at he
  | true =>
    cases hc : m.m_cache with
    | none => simp [hc] at he
    | some c =>
      simp only [hc, if_true] at he ⊢
      by_cases hu : c.count = U
      · simp [hu] at he
      · simp only [hu, if_false] at he ⊢
        exact ⟨trivial, c, rfl, hu, he, rfl⟩

theorem onVlcMlEventSwitch_eq_scan (U : Int) (m : MLSlidingWindowModel T) (X : Int)
    (c : ListCache T) (hc : m.m_cache = some c) (hu : c.count ≠ U) :
    onVlcMlEventSwitch U m (MLEvent.MEDIA_THUMBNAIL_GENERATED true X) =
      scanLoop c X (toSize c.count) 0 := by
  unfold onVlcMlEventSwitch
  simp [hc, hu]

theorem sampleFull_ids_ne_nine :
    ∀ c, sampleFull.m_cache = some c → ∀ i t, c.get i = some t → (MLItem.getId t).id ≠ 9 := by
  intro c hc i t ht
  have hc2 : c = sampleFullCache := (Option.some.inj hc).symm
  subst hc2
  rcases i with _ | _ | _ | i
  · cases (Option.some.inj ht); decide
  · cases (Option.some.inj ht); decide
  · cases (Option.some.inj ht); decide
  · simp [ListCache.get, sampleFullCache] at ht

end Scan

/-! ## Lemmas on the `getId*` functions -/

theorem item_eq_materializedItem (U : Int) (m : MLSlidingWindowModel T) (s : CInt) :
    (item U m s).1 = materializedItem U m s := by
  by_cases h : (validateCache U m).1.count = U ∨ s.val < 0 ∨
      s.val ≥ (validateCache U m).1.count
  · rw [item_of_guard U m s h]
    unfold materializedItem
    cases hc : m.m_cache with
    | none => rfl
    | some c =>
      rw [validateCache_of_some U m c hc] at h
      dsimp only at h ⊢
      by_cases hu : c.count = U
      · simp [hu]
      · have h2 : s.val < 0 ∨ c.count ≤ s.val := by
          rcases h with h | h | h
          · exact absurd h hu
          · exact Or.inl h
          · exact Or.inr h
        simp [hu, h2]
  · rw [item_of_range U m s h]
    unfold materializedItem
    cases hc : m.m_cache with
    | none => exact absurd (Or.inl (validateCache_count_of_none U m hc)) h
    | some c =>
      rw [validateCache_of_some U m c hc] at h ⊢
      simp only [not_or] at h
      obtain ⟨h1, h2, h3⟩ := h
      have h4 : ¬ (s.val < 0 ∨ c.count ≤ s.val) := by
        simp only [not_or]
        exact ⟨h2, by omega⟩
      simp only [h1, h4, if_false]
      rw [ListCache.get_refer, toUInt_of_CInt_nonneg s (by omega)]

theorem materializedItem_item (U : Int) (m : MLSlidingWindowModel T) (s r : CInt) :
    materializedItem U (item U m s).2 r = materializedItem U m r := by
  by_cases h : (validateCache U m).1.count = U ∨ s.val < 0 ∨
      s.val ≥ (validateCache U m).1.count
  · rw [item_of_guard U m s h]
    cases hc : m.m_cache with
    | none =>
      rw [validateCache_of_none U m hc]
      simp [materializedItem, hc, ListCache.count, ListCache.initCount, ListCache.create]
    | some c => rw [validateCache_of_some U m c hc]
  · rw [item_of_range U m s h]
    cases hc : m.m_cache with
    | none => exact absurd (Or.inl (validateCache_count_of_none U m hc)) h
    | some c =>
      rw [validateCache_of_some U m c hc]
      simp only [materializedItem, hc, ListCache.count_refer, ListCache.get_refer]

theorem transform_length {α β σ : Type} (f : σ → α → β × σ) :
    ∀ (xs : List α) (s : σ), (transform f s xs).1.length = xs.length := by
  intro xs
  induction xs with
  | nil => intro s; rfl
  | cons x xs ih =>
    intro s
    simp only [transform, List.length_cons, ih]

theorem transform_eq_map {α β σ : Type} (f : σ → α → β × σ) (g : α → β) (P : σ → Prop)
    (hP : ∀ s x, P s → (f s x).1 = g x ∧ P (f s x).2) :
    ∀ (xs : List α) (s : σ), P s → (transform f s xs).1 = xs.map g ∧ P (transform f s xs).2 := by
  intro xs
  induction xs with
  | nil => intro s hs; exact ⟨rfl, hs⟩
  | cons x xs ih =>
    intro s hs
    obtain ⟨h1, h2⟩ := hP s x hs
    obtain ⟨h3, h4⟩ := ih (f s x).2 h2
    simp only [transform, List.map_cons]
    exact ⟨by rw [h1, h3], h4⟩

section Ids

variable [MLItem T]

theorem idOfObj_item (U : Int) (m : MLSlidingWindowModel T) (s : CInt) :
    idOfObj (item U m s).1 = expectedId U m (some s) := by
  rw [item_eq_materializedItem]
  simp only [idOfObj, expectedId]

theorem variantStep_spec (U : Int) (m0 s : MLSlidingWindowModel T) (index : QVariant)
    (hs : ∀ r, materializedItem U s r = materializedItem U m0 r) :
    idOfObj (if index.canConvertInt then item U s index.toInt
        else if index.canConvertModelIndex then item U s index.valueModelIndex.row
        else (none, s)).1 = expectedId U m0 (rowOfIndex index) ∧
    ∀ r, materializedItem U (if index.canConvertInt then item U s index.toInt
        else if index.canConvertModelIndex then item U s index.valueModelIndex.row
        else (none, s)).2 r = materializedItem U m0 r := by
  unfold rowOfIndex
  cases h1 : index.canConvertInt
  · cases h2 : index.canConvertModelIndex
    · simp only [Bool.false_eq_true, if_false]
      exact ⟨rfl, hs⟩
    · simp only [Bool.false_eq_true, if_false, if_true]
      refine ⟨?_, fun r => by rw [materializedItem_item, hs]⟩
      rw [idOfObj_item]
      simp only [expectedId, hs]
  · simp only [if_true]
    refine ⟨?_, fun r => by rw [materializedItem_item, hs]⟩
    rw [idOfObj_item]
    simp only [expectedId, hs]

end Ids

/-! ## Lemmas on sequences of accesses -/

theorem LazyStep.refl (m : MLSlidingWindowModel T) : LazyStep m m false := by
  simp [LazyStep]

theorem LazyStep.trans {m m1 m2 : MLSlidingWindowModel T} {b1 b2 : Bool}
    (h1 : LazyStep m m1 b1) (h2 : LazyStep m1 m2 b2) : LazyStep m m2 (b1 || b2) := by
  obtain ⟨a1, a2, a3⟩ := h1
  obtain ⟨c1, c2, c3⟩ := h2
  unfold LazyStep
  rw [c1, c2, c3, a1, a2, a3]
  cases m.m_cache.isSome <;> cases b1 <;> cases b2 <;> simp

theorem validateCache_lazyStep (U : Int) (m : MLSlidingWindowModel T) :
    LazyStep m (validateCache U m).2 true := by
  cases hc : m.m_cache with
  | none =>
    rw [validateCache_of_none U m hc]
    simp [LazyStep, hc, List.count_append]
  | some c =>
    rw [validateCache_of_some U m c hc]
    simp [LazyStep, hc]

theorem item_lazyStep (U : Int) (m : MLSlidingWindowModel T) (s : CInt) :
    LazyStep m (item U m s).2 true := by
  have hv := validateCache_lazyStep U m
  by_cases h : (validateCache U m).1.count = U ∨ s.val < 0 ∨
      s.val ≥ (validateCache U m).1.count
  · rw [item_of_guard U m s h]
    exact hv
  · rw [item_of_range U m s h]
    obtain ⟨h1, h2, h3⟩ := hv
    refine ⟨by simp, ?_, ?_⟩
    · simp only [List.count_append]
      rw [h2]
      simp
    · simp only [List.count_append]
      rw [h3]
      simp

theorem rowCount_lazyStep (U : Int) (m : MLSlidingWindowModel T) (parent : QModelIndex) :
    LazyStep m (rowCount U m parent).2 (!parent.isValid) := by
  unfold rowCount
  cases parent.isValid with
  | true => exact LazyStep.refl m
  | false => exact validateCache_lazyStep U m

theorem transform_lazyStep {α β : Type}
    (f : MLSlidingWindowModel T → α → β × MLSlidingWindowModel T) (reach : α → Bool)
    (hf : ∀ s x, LazyStep s (f s x).2 (reach x)) :
    ∀ (xs : List α) (s : MLSlidingWindowModel T),
      LazyStep s (transform f s xs).2 (xs.any reach) := by
  intro xs
  induction xs with
  | nil => intro s; exact LazyStep.refl s
  | cons x xs ih =>
    intro s
    simp only [transform, List.any_cons]
    exact LazyStep.trans (hf s x) (ih (f s x).2)

theorem variantStep_lazyStep (U : Int) (s : MLSlidingWindowModel T) (index : QVariant) :
    LazyStep s (if index.canConvertInt then item U s index.toInt
        else if index.canConvertModelIndex then item U s index.valueModelIndex.row
        else ((none : Option T), s)).2 index.convertible := by
  unfold QVariant.convertible
  cases h1 : index.canConvertInt
  · cases h2 : index.canConvertModelIndex
    · exact LazyStep.refl s
    · exact item_lazyStep U s _
  · exact item_lazyStep U s _

section Calls

variable [MLItem T]

theorem Call.run_lazyStep (U : Int) (m : MLSlidingWindowModel T) (call : Call) :
    LazyStep m (call.run U m) call.reachesValidateCache := by
  cases call with
  | rowCount parent => exact rowCount_lazyStep U m parent
  | item signedidx => exact item_lazyStep U m signedidx
  | getIdForIndex index => exact variantStep_lazyStep U m index
  | getIdsForIndexes_QModelIndexList indexes =>
    show LazyStep m (transform _ m indexes).2 (indexes.any (fun _ => true))
    apply transform_lazyStep
    intro s x
    exact item_lazyStep U s x.row
  | getIdsForIndexes_QVariantList indexes =>
    show LazyStep m (transform _ m indexes).2 (indexes.any QVariant.convertible)
    apply transform_lazyStep
    intro s x
    exact variantStep_lazyStep U s x

theorem runCalls_lazyStep (U : Int) :
    ∀ (calls : List Call) (m : MLSlidingWindowModel T),
      LazyStep m (runCalls U m calls) (calls.any Call.reachesValidateCache) := by
  intro calls
  induction calls with
  | nil => intro m; exact LazyStep.refl m
  | cons call calls ih =>
    intro m
    simp only [runCalls, List.foldl_cons, List.any_cons]
    exact LazyStep.trans (Call.run_lazyStep U m call) (ih (call.run U m))

end Calls

/-! ## The properties of the specification -/

/-- C3: `item(signedidx)` returns null, and calls neither `refer` nor `get`, whenever the
count is uninitialized, `signedidx < 0` or `signedidx >= count`; consequently every `refer`
and every `get` that `item` issues is at an index of `[0, count)` with the count known. -/
theorem item_guards_index_range (U : Int) (m : MLSlidingWindowModel T) (signedidx : CInt) :
    (((validateCache U m).1.count = U ∨ signedidx.val < 0 ∨
        signedidx.val ≥ (validateCache U m).1.count) →
      (item U m signedidx).1 = none ∧
      ∀ i, Event.refer i ∉ newEvents m (item U m signedidx).2 ∧
           Event.get i ∉ newEvents m (item U m signedidx).2) ∧
    (∀ i, (Event.refer i ∈ newEvents m (item U m signedidx).2 ∨
           Event.get i ∈ newEvents m (item U m signedidx).2) →
        (validateCache U m).1.count ≠ U ∧ (0 : Int) ≤ i ∧
          (i : Int) < (validateCache U m).1.count) := by
  constructor
  · intro h
    refine ⟨by rw [item_of_guard U m signedidx h], fun i => ?_⟩
    rw [item_newEvents_of_guard U m signedidx h]
    cases m.m_cache <;> simp
  · intro i hi
    by_cases h : (validateCache U m).1.count = U ∨ signedidx.val < 0 ∨
        signedidx.val ≥ (validateCache U m).1.count
    · rw [item_newEvents_of_guard U m signedidx h] at hi
      cases hc : m.m_cache <;> simp [hc] at hi
    · rw [item_newEvents_of_range U m signedidx h] at hi
      have hidx : i = toUInt signedidx.val := by
        cases hc : m.m_cache <;> simp [hc] at hi <;> exact hi
      push_neg at h
      obtain ⟨h1, h2, h3⟩ := h
      rw [hidx, toUInt_of_CInt_nonneg signedidx h2, Int.toNat_of_nonneg h2]
      exact ⟨h1, h2, h3⟩

/-- Witness for C3 at row 5 of a two-row cache: the guard holds, `item` returns null and
no `refer 5` is issued. -/
theorem item_guards_index_range_witness :
    ((validateCache (-1) sampleWindow).1.count = -1 ∨ (toCInt 5).val < 0 ∨
        (toCInt 5).val ≥ (validateCache (-1) sampleWindow).1.count) ∧
    (item (-1) sampleWindow (toCInt 5)).1 = none ∧
    Event.refer 5 ∉ newEvents sampleWindow (item (-1) sampleWindow (toCInt 5)).2 :=
  ⟨by decide,
   ((item_guards_index_range (-1) sampleWindow (toCInt 5)).1 (by decide)).1,
   (((item_guards_index_range (-1) sampleWindow (toCInt 5)).1 (by decide)).2 5).1⟩

/-- C4: for a row with `0 <= row < count` and the count known, `item(row)` calls
`refer(row)` once and then `get(row)`, in that order and nothing else on the cache, and
returns what `get(row)` holds: the item of a present slot, null for an absent or pending
one. -/
theorem item_refers_then_gets (U : Int) (m : MLSlidingWindowModel T) (c : ListCache T)
    (row : CInt) (hc : m.m_cache = some c) (hcount : c.count ≠ U)
    (hlo : 0 ≤ row.val) (hhi : row.val < c.count) :
    newEvents m (item U m row).2 = [Event.refer row.val.toNat, Event.get row.val.toNat] ∧
    (item U m row).2.m_cache = some (c.refer row.val.toNat) ∧
    (item U m row).1 = (c.refer row.val.toNat).get row.val.toNat ∧
    (item U m row).1 = c.get row.val.toNat := by
  have hv := validateCache_of_some U m c hc
  have hg : ¬ ((validateCache U m).1.count = U ∨ row.val < 0 ∨
      row.val ≥ (validateCache U m).1.count) := by
    rw [hv]
    simp only [not_or]
    exact ⟨hcount, by omega, by omega⟩
  refine ⟨?_, ?_, ?_, ?_⟩
  · rw [item_newEvents_of_range U m row hg, toUInt_of_CInt_nonneg row hlo]
    simp [hc]
  · rw [item_of_range U m row hg, hv, toUInt_of_CInt_nonneg row hlo]
  · rw [item_of_range U m row hg, hv, toUInt_of_CInt_nonneg row hlo]
  · rw [item_of_range U m row hg, hv, toUInt_of_CInt_nonneg row hlo, ListCache.get_refer]

/-- Witness for C4 at row 1 of the two-row cache whose second slot holds the item 7. -/
theorem item_refers_then_gets_witness :
    (sampleWindow.m_cache = some sampleWindowCache ∧ sampleWindowCache.count ≠ -1 ∧
      0 ≤ (toCInt 1).val ∧ (toCInt 1).val < sampleWindowCache.count) ∧
    newEvents sampleWindow (item (-1) sampleWindow (toCInt 1)).2 =
      [Event.refer 1, Event.get 1] ∧
    (item (-1) sampleWindow (toCInt 1)).1 = some ⟨7⟩ :=
  have h := item_refers_then_gets (-1) sampleWindow sampleWindowCache (toCInt 1)
    rfl (by decide) (by decide) (by decide)
  ⟨by decide, h.1, h.2.2.2.trans (by decide)⟩


/-- C9: `getCount()` returns 0 when there is no cache or when the cache's count is
`COUNT_UNINITIALIZED`, otherwise the count cast to `unsigned int` (the count itself when
it fits); it is a pure read: the cache, and the trace with it, stay as they were, so no
cache is created and neither `initCount` nor `refer` is called. -/
theorem getCount_reads_known_count (U : Int) (m : MLSlidingWindowModel T) :
    (m.m_cache = none → (getCount U m).1 = 0) ∧
    (∀ c, m.m_cache = some c → c.count = U → (getCount U m).1 = 0) ∧
    (∀ c, m.m_cache = some c → c.count ≠ U →
       (getCount U m).1 = (c.count % 4294967296).toNat ∧
       (0 ≤ c.count → c.count < 4294967296 → ((getCount U m).1 : Int) = c.count)) ∧
    (getCount U m).2 = m ∧ newEvents m (getCount U m).2 = [] := by
  refine ⟨?_, ?_, ?_, ?_, ?_⟩
  · intro h
    simp [getCount, h]
  · intro c h hu
    simp [getCount, h, hu]
  · intro c h hu
    refine ⟨by simp [getCount, h, hu, toUInt], fun h0 h1 => ?_⟩
    simp only [getCount, h, hu, if_false, toUInt]
    rw [Int.emod_eq_of_lt h0 h1, Int.toNat_of_nonneg h0]
  · unfold getCount
    cases m.m_cache with
    | none => rfl
    | some c => dsimp only; split <;> rfl
  · unfold getCount newEvents
    cases m.m_cache with
    | none => simp
    | some c => dsimp only; split <;> simp

/-- Witness for C9: without a cache and while counting `getCount` is 0, with a known count
of 3 it is 3. -/
theorem getCount_reads_known_count_witness :
    (sampleUninitialized.m_cache = none ∧ (getCount (-1) sampleUninitialized).1 = 0) ∧
    (sampleCounting.m_cache = some sampleCountingCache ∧ sampleCountingCache.count = -1 ∧
      (getCount (-1) sampleCounting).1 = 0) ∧
    (sampleFull.m_cache = some sampleFullCache ∧ sampleFullCache.count ≠ -1 ∧
      ((getCount (-1) sampleFull).1 : Int) = sampleFullCache.count) :=
  ⟨⟨rfl, (getCount_reads_known_count (-1) sampleUninitialized).1 rfl⟩,
   ⟨rfl, rfl, (getCount_reads_known_count (-1) sampleCounting).2.1 sampleCountingCache rfl rfl⟩,
   ⟨rfl, by decide,
    ((getCount_reads_known_count (-1) sampleFull).2.2.1 sampleFullCache rfl (by decide)).2
      (by decide) (by decide)⟩⟩

/-- C7: from every state `clear()` leaves the model without a cache and emits exactly
`countChanged(0)`; right afterwards `getCount()` is 0, and the next `rowCount` at the root
as well as the next `item` at any index creates a fresh cache from `createLoader()` and
calls `initCount()` on it. -/
theorem clear_resets_to_uninitialized (U : Int) (m : MLSlidingWindowModel T) :
    (clear m).m_cache = none ∧
    newEvents m (clear m) = [Event.countChanged 0] ∧
    (getCount U (clear m)).1 = 0 ∧
    (∀ row : CInt,
      (rowCount U (clear m) ⟨false, row⟩).2.m_cache =
          some (ListCache.create U (clear m).createLoader).initCount ∧
      newEvents (clear m) (rowCount U (clear m) ⟨false, row⟩).2 =
          [Event.createLoader, Event.initCount]) ∧
    (∀ signedidx : CInt,
      (item U (clear m) signedidx).2.m_cache =
          some (ListCache.create U (clear m).createLoader).initCount ∧
      newEvents (clear m) (item U (clear m) signedidx).2 =
          [Event.createLoader, Event.initCount]) := by
  have hnone : (clear m).m_cache = none := rfl
  refine ⟨rfl, by simp [newEvents, clear, invalidateCache], by simp [getCount, hnone], ?_, ?_⟩
  · intro row
    have hv := validateCache_of_none U (clear m) hnone
    constructor
    · simp only [rowCount, hv]
      rfl
    · simp only [rowCount, hv, newEvents]
      simp
  · intro s
    have hg : (validateCache U (clear m)).1.count = U ∨ s.val < 0 ∨
        s.val ≥ (validateCache U (clear m)).1.count :=
      Or.inl (validateCache_count_of_none U (clear m) hnone)
    constructor
    · rw [item_of_guard U (clear m) s hg, validateCache_of_none U (clear m) hnone]
    · rw [item_newEvents_of_guard U (clear m) s hg]
      simp [hnone]

/-- C2, the code at the failing inputs, with the sentinel of `ssize_t` taken as `-1`:
`rowCount` at the root returns `-1`, not 0, both when the model has no cache yet and when
its cache is still counting, while `getCount` returns 0 in both states; whatever the
sentinel, `rowCount` on a model without a cache returns that sentinel converted to `int`. -/
theorem rowCount_returns_sentinel_while_counting :
    (rowCount (-1) sampleUninitialized rootIndex).1.val = -1 ∧
    (rowCount (-1) sampleCounting rootIndex).1.val = -1 ∧
    (getCount (-1) sampleUninitialized).1 = 0 ∧
    (getCount (-1) sampleCounting).1 = 0 ∧
    (∀ U : Int, (rowCount U sampleUninitialized rootIndex).1 = toCInt U) :=
  ⟨by decide, by decide, by decide, by decide, fun _ => rfl⟩

/-- C1, the code at the failing input: the cache has two rows, slot 0 is absent and slot 1
holds the item of id 7; on a successful thumbnail event for media 7 the scan reads slot 0
and stops, so `thumbnailUpdated` is not called for row 1. -/
theorem thumbnail_scan_stops_at_absent_slot :
    sampleWindowCache.get 0 = none ∧
    sampleWindowCache.get 1 = some ⟨7⟩ ∧
    onVlcMlEventSwitch (-1) sampleWindow (MLEvent.MEDIA_THUMBNAIL_GENERATED true 7) =
      [Event.get 0] ∧
    Event.thumbnailUpdated (toCInt 1) ∉
      newEvents sampleWindow
        (onVlcMlEvent (-1) sampleWindow (MLEvent.MEDIA_THUMBNAIL_GENERATED true 7)) := by
  decide


/-- C10: on a thumbnail-generated event the scan of `onVlcMlEvent` reads only the prefix of
present slots starting at index 0 and stops at the first absent slot or the first id match:
an event with `b_success` false calls `thumbnailUpdated` never, any event calls it at most
once, every slot read comes after slots that are all present with another id, a call is for
an index `i` below the count such that slots `0..i` are present, slot `i` has the media id
and no earlier slot has it, and that call does happen whenever such an index exists. -/
theorem thumbnail_scan_stops_at_first_match [MLItem T] (U : Int)
    (m : MLSlidingWindowModel T) (b_success : Bool) (X : Int) :
    (b_success = false → ∀ r, Event.thumbnailUpdated r ∉
        newEvents m (onVlcMlEvent U m (MLEvent.MEDIA_THUMBNAIL_GENERATED b_success X))) ∧
    (newEvents m (onVlcMlEvent U m (MLEvent.MEDIA_THUMBNAIL_GENERATED b_success X))).countP
        Event.isThumbnailUpdated ≤ 1 ∧
    (∀ j, Event.get j ∈
        newEvents m (onVlcMlEvent U m (MLEvent.MEDIA_THUMBNAIL_GENERATED b_success X)) →
      ∃ c, m.m_cache = some c ∧ j < toSize c.count ∧
        ∀ k, k < j → ∃ t, c.get k = some t ∧ (MLItem.getId t).id ≠ X) ∧
    (∀ r, Event.thumbnailUpdated r ∈
        newEvents m (onVlcMlEvent U m (MLEvent.MEDIA_THUMBNAIL_GENERATED b_success X)) →
      b_success = true ∧ ∃ c i, m.m_cache = some c ∧ c.count ≠ U ∧ i < toSize c.count ∧
        r = toCInt i ∧ (∀ k, k ≤ i → (c.get k).isSome = true) ∧
        (∃ t, c.get i = some t ∧ (MLItem.getId t).id = X) ∧
        (∀ k, k < i → ∀ t, c.get k = some t → (MLItem.getId t).id ≠ X)) ∧
    (∀ c i, b_success = true → m.m_cache = some c → c.count ≠ U → i < toSize c.count →
      (∀ k, k ≤ i → (c.get k).isSome = true) →
      (∃ t, c.get i = some t ∧ (MLItem.getId t).id = X) →
      (∀ k, k < i → ∀ t, c.get k = some t → (MLItem.getId t).id ≠ X) →
      Event.thumbnailUpdated (toCInt i) ∈
        newEvents m (onVlcMlEvent U m (MLEvent.MEDIA_THUMBNAIL_GENERATED b_success X))) := by
  simp only [onVlcMlEvent_newEvents]
  refine ⟨?_, ?_, ?_, ?_, ?_⟩
  · intro hb r hr
    subst hb
    simp [onVlcMlEventSwitch] at hr
  · rw [List.countP_append]
    have hbase : List.countP Event.isThumbnailUpdated [Event.baseOnVlcMlEvent] = 0 := by
      simp [Event.isThumbnailUpdated]
    rw [hbase, Nat.add_zero]
    by_cases hne : onVlcMlEventSwitch U m (MLEvent.MEDIA_THUMBNAIL_GENERATED b_success X) = []
    · rw [hne]
      simp
    · obtain ⟨e, he⟩ := List.exists_mem_of_ne_nil _ hne
      obtain ⟨_, c, _, _, _, heq⟩ := onVlcMlEventSwitch_of_scan U m b_success X e he
      rw [heq]
      exact scanLoop_thumbnail_count c X _ 0
  · intro j hj
    simp only [List.mem_append, List.mem_singleton, reduceCtorEq, or_false] at hj
    obtain ⟨_, c, hc, _, hmem, _⟩ := onVlcMlEventSwitch_of_scan U m b_success X _ hj
    obtain ⟨_, h2, h3⟩ := scanLoop_get_mem c X _ 0 j hmem
    exact ⟨c, hc, by omega, fun k hk => h3 k (Nat.zero_le _) hk⟩
  · intro r hr
    simp only [List.mem_append, List.mem_singleton, reduceCtorEq, or_false] at hr
    obtain ⟨hb, c, hc, hu, hmem, _⟩ := onVlcMlEventSwitch_of_scan U m b_success X _ hr
    obtain ⟨i, _, h2, h3, h4, h5⟩ := scanLoop_thumbnail_mem c X _ 0 r hmem
    refine ⟨hb, c, i, hc, hu, by omega, h3, fun k hk => ?_, h4, fun k hk t ht => ?_⟩
    · by_cases hki : k = i
      · subst hki
        obtain ⟨t, ht, _⟩ := h4
        simp [ht]
      · obtain ⟨t, ht, _⟩ := h5 k (Nat.zero_le _) (by omega)
        simp [ht]
    · obtain ⟨t1, ht1, hne⟩ := h5 k (Nat.zero_le _) hk
      rw [ht] at ht1
      cases ht1
      exact hne
  · intro c i hb hc hu hi hpres hmatch hearlier
    subst hb
    rw [onVlcMlEventSwitch_eq_scan U m X c hc hu]
    refine List.mem_append_left _ (scanLoop_finds c X _ 0 i (Nat.zero_le _) (by omega) hmatch ?_)
    intro k _ hk
    have hs := hpres k (by omega)
    cases hg : c.get k with
    | none => simp [hg] at hs
    | some t => exact ⟨t, rfl, hearlier k hk t hg⟩

/-- Witness for C10 on the cache of ids 5, 7, 7 and an event for media 7: row 1 is the
first match and is the row `thumbnailUpdated` is called for; row 2 is not, since a call for
it would need no earlier slot with the id. -/
theorem thumbnail_scan_stops_at_first_match_witness :
    (sampleFull.m_cache = some sampleFullCache ∧ sampleFullCache.count ≠ -1 ∧
      1 < toSize sampleFullCache.count ∧
      (∃ t, sampleFullCache.get 1 = some t ∧ (MLItem.getId t).id = 7)) ∧
    Event.thumbnailUpdated (toCInt 1) ∈
      newEvents sampleFull
        (onVlcMlEvent (-1) sampleFull (MLEvent.MEDIA_THUMBNAIL_GENERATED true 7)) :=
  ⟨⟨rfl, by decide, by decide, ⟨⟨7⟩, rfl, rfl⟩⟩,
   (thumbnail_scan_stops_at_first_match (-1) sampleFull true 7).2.2.2.2
     sampleFullCache 1 rfl rfl (by decide) (by decide)
     (fun k hk => by
        have hk2 : k = 0 ∨ k = 1 := by omega
        rcases hk2 with h | h <;> subst h <;> rfl)
     ⟨⟨7⟩, rfl, rfl⟩
     (fun k hk t ht => by
        have hk0 : k = 0 := by omega
        subst hk0
        have h5 : t = ⟨5⟩ := by
          have h := ht.symm
          exact Option.some.inj (h.trans rfl)
        subst h5
        decide)⟩

/-- C6: on a thumbnail-generated event, successful or not, whose media id is the id of no
item in a present slot (which includes the states without a cache and with an
uninitialized count), `thumbnailUpdated` is not called, `refer` is not called, no loader or
cache is created and `initCount` is not called; the cache, hence its slots and its count,
and the query fields stay as they were. -/
theorem thumbnail_event_without_match_is_ignored [MLItem T] (U : Int)
    (m : MLSlidingWindowModel T) (b_success : Bool) (X : Int)
    (hno : ∀ c, m.m_cache = some c → ∀ i t, c.get i = some t → (MLItem.getId t).id ≠ X) :
    (∀ r, Event.thumbnailUpdated r ∉
        newEvents m (onVlcMlEvent U m (MLEvent.MEDIA_THUMBNAIL_GENERATED b_success X))) ∧
    (∀ i, Event.refer i ∉
        newEvents m (onVlcMlEvent U m (MLEvent.MEDIA_THUMBNAIL_GENERATED b_success X))) ∧
    Event.createLoader ∉
        newEvents m (onVlcMlEvent U m (MLEvent.MEDIA_THUMBNAIL_GENERATED b_success X)) ∧
    Event.initCount ∉
        newEvents m (onVlcMlEvent U m (MLEvent.MEDIA_THUMBNAIL_GENERATED b_success X)) ∧
    (onVlcMlEvent U m (MLEvent.MEDIA_THUMBNAIL_GENERATED b_success X)).m_cache = m.m_cache ∧
    (onVlcMlEvent U m (MLEvent.MEDIA_THUMBNAIL_GENERATED b_success X)).createLoader =
      m.createLoader := by
  have hscan : ∀ e, e ∈ onVlcMlEventSwitch U m (MLEvent.MEDIA_THUMBNAIL_GENERATED b_success X) →
      ∃ j, e = Event.get j := by
    intro e he
    obtain ⟨_, c, hc, _, hmem, _⟩ := onVlcMlEventSwitch_of_scan U m b_success X e he
    rcases scanLoop_mem_kind c X _ 0 e hmem with ⟨j, hj⟩ | ⟨r, hr⟩
    · exact ⟨j, hj⟩
    · subst hr
      obtain ⟨j, _, _, _, ⟨t, ht, hid⟩, _⟩ := scanLoop_thumbnail_mem c X _ 0 r hmem
      exact absurd hid (hno c hc j t ht)
  simp only [onVlcMlEvent_newEvents]
  refine ⟨?_, ?_, ?_, ?_, rfl, rfl⟩
  · intro r hr
    simp only [List.mem_append, List.mem_singleton, reduceCtorEq, or_false] at hr
    obtain ⟨j, hj⟩ := hscan _ hr
    cases hj
  · intro i hr
    simp only [List.mem_append, List.mem_singleton, reduceCtorEq, or_false] at hr
    obtain ⟨j, hj⟩ := hscan _ hr
    cases hj
  · intro hr
    simp only [List.mem_append, List.mem_singleton, reduceCtorEq, or_false] at hr
    obtain ⟨j, hj⟩ := hscan _ hr
    cases hj
  · intro hr
    simp only [List.mem_append, List.mem_singleton, reduceCtorEq, or_false] at hr
    obtain ⟨j, hj⟩ := hscan _ hr
    cases hj


/-- Witness for C6 on the cache of ids 5, 7, 7 and an event for media 9, which no slot
holds: the three slots are read and nothing else happens. -/
theorem thumbnail_event_without_match_is_ignored_witness :
    (∀ c, sampleFull.m_cache = some c → ∀ i t, c.get i = some t → (MLItem.getId t).id ≠ 9) ∧
    newEvents sampleFull
        (onVlcMlEvent (-1) sampleFull (MLEvent.MEDIA_THUMBNAIL_GENERATED true 9)) =
      [Event.get 0, Event.get 1, Event.get 2, Event.baseOnVlcMlEvent] ∧
    (∀ r, Event.thumbnailUpdated r ∉
        newEvents sampleFull
          (onVlcMlEvent (-1) sampleFull (MLEvent.MEDIA_THUMBNAIL_GENERATED true 9))) :=
  ⟨sampleFull_ids_ne_nine, by decide,
   (thumbnail_event_without_match_is_ignored (-1) sampleFull true 9 sampleFull_ids_ne_nine).1⟩


/-- C5: `getIdForIndex` and both `getIdsForIndexes` give, for each input, the id of the item
its row has materialized, and the empty value when there is none: the row is out of range,
the count is unknown, the slot is absent or pending, or the index value converts neither to
`int` nor to a model index; the lists returned have the length of their input, result `k`
answering input `k`. -/
theorem getIds_resolve_materialized_rows [MLItem T] (U : Int) (m : MLSlidingWindowModel T) :
    (∀ index : QVariant,
      (getIdForIndex U m index).1 = expectedId U m (rowOfIndex index)) ∧
    (∀ indexes : List QVariant,
      (getIdsForIndexes_QVariantList U m indexes).1 =
        indexes.map (fun index => expectedId U m (rowOfIndex index)) ∧
      (getIdsForIndexes_QVariantList U m indexes).1.length = indexes.length) ∧
    (∀ indexes : List QModelIndex,
      (getIdsForIndexes_QModelIndexList U m indexes).1 =
        indexes.map (fun index => expectedId U m (some index.row)) ∧
      (getIdsForIndexes_QModelIndexList U m indexes).1.length = indexes.length) := by
  refine ⟨fun index => ?_, fun indexes => ⟨?_, transform_length _ _ _⟩,
    fun indexes => ⟨?_, transform_length _ _ _⟩⟩
  · exact (variantStep_spec U m m index (fun _ => rfl)).1
  · exact (transform_eq_map _ (fun index => expectedId U m (rowOfIndex index))
      (fun s => ∀ r, materializedItem U s r = materializedItem U m r)
      (fun s x hs => variantStep_spec U m s x hs) indexes m (fun _ => rfl)).1
  · refine (transform_eq_map _ (fun index : QModelIndex => expectedId U m (some index.row))
      (fun s => ∀ r, materializedItem U s r = materializedItem U m r)
      (fun s x hs => ⟨?_, fun r => ?_⟩) indexes m (fun _ => rfl)).1
    · show idOfObj (item U s x.row).1 = _
      rw [idOfObj_item]
      simp only [expectedId, hs]
    · show materializedItem U (item U s x.row).2 r = _
      rw [materializedItem_item, hs]


/-- C8 as stated fails: starting without a cache, the sequence `rowCount` of a valid parent,
`getIdForIndex` of a value that converts to no row, `getIdsForIndexes` of the empty list
runs to its end without `initCount` being called, and still without a cache. -/
theorem initCount_not_called_by_calls_off_cache :
    sampleUninitialized.m_cache = none ∧
    (runCalls (-1) sampleUninitialized
        [Call.rowCount sampleItemIndex, Call.getIdForIndex sampleUnconvertible,
         Call.getIdsForIndexes_QVariantList []]).trace.count Event.initCount ≠ 1 ∧
    (runCalls (-1) sampleUninitialized
        [Call.rowCount sampleItemIndex, Call.getIdForIndex sampleUnconvertible,
         Call.getIdsForIndexes_QVariantList []]).m_cache = none := by
  decide

/-- C8, amended: `validateCache` does nothing when a cache exists; without one it creates
the cache from `createLoader()` and calls `initCount()` once; it is idempotent.  Hence over
any sequence of `rowCount`/`item`/`getId*` calls with no `clear()` in between, `initCount()`
and `createLoader()` are called at most once: once when the model had no cache and some call
of the sequence reaches `validateCache`, and not at all otherwise; and a cache exists
afterwards exactly when it existed before or was reached for. -/
theorem validateCache_lazy_idempotent [MLItem T] (U : Int) (m : MLSlidingWindowModel T) :
    (∀ c, m.m_cache = some c → validateCache U m = (c, m)) ∧
    (m.m_cache = none →
      (validateCache U m).2.m_cache = some (ListCache.create U m.createLoader).initCount ∧
      newEvents m (validateCache U m).2 = [Event.createLoader, Event.initCount]) ∧
    validateCache U (validateCache U m).2 = ((validateCache U m).1, (validateCache U m).2) ∧
    (∀ calls : List Call,
      (runCalls U m calls).trace.count Event.initCount =
        m.trace.count Event.initCount +
          (if m.m_cache.isNone && calls.any Call.reachesValidateCache then 1 else 0) ∧
      (runCalls U m calls).trace.count Event.createLoader =
        m.trace.count Event.createLoader +
          (if m.m_cache.isNone && calls.any Call.reachesValidateCache then 1 else 0) ∧
      (runCalls U m calls).m_cache.isSome =
        (m.m_cache.isSome || calls.any Call.reachesValidateCache)) := by
  refine ⟨fun c hc => validateCache_of_some U m c hc, fun hc => ?_, ?_, fun calls => ?_⟩
  · constructor
    · rw [validateCache_of_none U m hc]
    · rw [validateCache_newEvents]
      simp [hc]
  · exact validateCache_of_some U _ _ (validateCache_cache U m)
  · obtain ⟨h1, h2, h3⟩ := runCalls_lazyStep U calls m
    refine ⟨?_, ?_, h1⟩
    · rw [h2]
      cases m.m_cache <;> cases calls.any Call.reachesValidateCache <;> simp
    · rw [h3]
      cases m.m_cache <;> cases calls.any Call.reachesValidateCache <;> simp

/-- Witness for C8, amended: without a cache `validateCache` calls `createLoader` and
`initCount`, and over the sequence `rowCount` at the root, `item(0)`, `getIdForIndex(1)`,
`rowCount` at the root again, `initCount` is called once. -/
theorem validateCache_lazy_idempotent_witness :
    sampleUninitialized.m_cache = none ∧
    newEvents sampleUninitialized (validateCache (-1) sampleUninitialized).2 =
      [Event.createLoader, Event.initCount] ∧
    (runCalls (-1) sampleUninitialized
        [Call.rowCount rootIndex, Call.item (toCInt 0), Call.getIdForIndex sampleIntVariant,
         Call.rowCount rootIndex]).trace.count Event.initCount = 1 :=
  ⟨rfl,
   ((validateCache_lazy_idempotent (-1) sampleUninitialized).2.1 rfl).2,
   ((validateCache_lazy_idempotent (-1) sampleUninitialized).2.2.2
      [Call.rowCount rootIndex, Call.item (toCInt 0), Call.getIdForIndex sampleIntVariant,
       Call.rowCount rootIndex]).1.trans (by decide)⟩

end MLSlidingWindowModel

end MLModel
